import Mathlib

/-!
Shallow embedding of the cart logic of `src/script.js`.

The cart is a JavaScript `Map<itemId, { id, name, price, quantity }>`.
A `Map` preserves insertion order and has unique keys; we embed it as a
`List LineItem` together with, where a statement needs it, the hypothesis
that the listed ids are `Nodup` (which every `Map` state satisfies by
construction).  Monetary amounts are embedded as `ℚ` (JS numbers used as
exact decimals by the page), quantities and deltas as `ℤ` (signed
integers).  DOM writes are embedded as explicit output structures; the
functions that only read the cart stay pure.
-/

/-- A cart entry: `{ id, name, price, quantity }` in `script.js`. -/
structure LineItem where
  id : String
  name : String
  price : ℚ
  quantity : ℤ
  deriving Repr, DecidableEq

/-- The cart store: `const cart = new Map()`, keys in insertion order. -/
abbrev Cart := List LineItem

/-- `cart.get(key)`: the entry stored under `key` (first occurrence). -/
def mapGet (c : Cart) (key : String) : Option LineItem :=
  c.find? (fun it => it.id == key)

/-- `cart.set(key, v)`: replace the entry under `key` in place, or append. -/
def mapSet : Cart → String → LineItem → Cart
  | [], _, v => [v]
  | it :: rest, key, v =>
      if it.id == key then v :: rest else it :: mapSet rest key v

/-- `cart.delete(key)`: drop the entry under `key` (first occurrence). -/
def mapDelete : Cart → String → Cart
  | [], _ => []
  | it :: rest, key =>
      if it.id == key then rest else it :: mapDelete rest key

/-- In-place mutation of the object stored under `key` (JS aliasing:
`existing.quantity += 1` / `item.quantity = newQty` mutate the object the
`Map` holds). -/
def modifyFirst : Cart → String → (LineItem → LineItem) → Cart
  | [], _, _ => []
  | it :: rest, key, f =>
      if it.id == key then f it :: rest else it :: modifyFirst rest key f

/-- The input of `addToCart`: `{ id, name, price }`. -/
structure AddInput where
  id : String
  name : String
  price : ℚ
  deriving Repr, DecidableEq

/-- `addToCart(item)` (`script.js` lines 47-55), without the trailing
render call (the render is embedded separately and reads the store). -/
def addToCart (c : Cart) (item : AddInput) : Cart :=
  match mapGet c item.id with
  | some _ => modifyFirst c item.id (fun ex => { ex with quantity := ex.quantity + 1 })
  | none => mapSet c item.id { id := item.id, name := item.name, price := item.price, quantity := 1 }

/-- `updateQuantity(id, delta)` (`script.js` lines 62-73). -/
def updateQuantity (c : Cart) (id : String) (delta : ℤ) : Cart :=
  match mapGet c id with
  | none => c
  | some item =>
      let newQty := item.quantity + delta
      if newQty ≤ 0 then mapDelete c id
      else modifyFirst c id (fun it => { it with quantity := newQty })

/-- `removeFromCart(id)` (`script.js` lines 79-82). -/
def removeFromCart (c : Cart) (id : String) : Cart :=
  mapDelete c id

/-- `clearCart()` (`script.js` lines 87-90): `cart.clear()`. -/
def clearCart (_c : Cart) : Cart := []

/-- Result of `calculateTotals()`. -/
structure Totals where
  itemsTotal : ℚ
  grandTotal : ℚ
  deriving Repr, DecidableEq

/-- `calculateTotals()` (`script.js` lines 96-105): `forEach` accumulation
of `item.price * item.quantity`, then `grandTotal = itemsTotal`. -/
def calculateTotals (c : Cart) : Totals :=
  let itemsTotal := c.foldl (fun acc it => acc + it.price * (it.quantity : ℚ)) 0
  { itemsTotal := itemsTotal, grandTotal := itemsTotal }

/-- `calculateTotals` as the state transformer the caller sees: the JS
body reads `cart` via `forEach` and writes only its local accumulator, so
the store component of the result is the input store. -/
def calculateTotalsOp (c : Cart) : Totals × Cart :=
  (calculateTotals c, c)

/-- `amount.toFixed(0)` for a JS number: round to the nearest integer,
ties to the larger magnitude after the sign is split off (ECMAScript
`Number.prototype.toFixed`: negate first, pick the larger `n` on ties). -/
def toFixed0Str (q : ℚ) : String :=
  if q < 0 then "-" ++ toString (⌊-q + 1/2⌋ : ℤ)
  else toString (⌊q + 1/2⌋ : ℤ)

/-- `formatINR(amount)` (`script.js` lines 10-12). -/
def formatINR (amount : ℚ) : String :=
  "₹" ++ toFixed0Str amount

/-- One rendered cart row (`renderCart`, lines 123-147): the data the row
markup interpolates for an item. -/
structure RowView where
  name : String
  quantityText : String
  priceText : String
  lineTotalText : String
  deriving Repr, DecidableEq

/-- The row built for one item inside `cart.forEach` in `renderCart`. -/
def renderRow (it : LineItem) : RowView :=
  { name := it.name
    quantityText := toString it.quantity
    priceText := formatINR it.price
    lineTotalText := formatINR (it.price * (it.quantity : ℚ)) }

/-- Everything `renderCart()` writes to the display surface. -/
structure RenderOutput where
  emptyShown : Bool
  checkoutDisabled : Bool
  clearDisabled : Bool
  rows : List RowView
  itemsTotalText : String
  grandTotalText : String
  qrAmounts : List ℚ
  deriving Repr, DecidableEq

/-- `renderCart()` (`script.js` lines 110-157): empty-state toggling, one
row per entry in insertion order, the two formatted totals, and the
`updateQRCode(grandTotal)` call it makes (recorded by its amount). -/
def renderCart (c : Cart) : RenderOutput :=
  let t := calculateTotals c
  { emptyShown := c.length = 0
    checkoutDisabled := c.length = 0
    clearDisabled := c.length = 0
    rows := if c.length = 0 then [] else c.map renderRow
    itemsTotalText := formatINR t.itemsTotal
    grandTotalText := formatINR t.grandTotal
    qrAmounts := [t.grandTotal] }

/-- The human-readable amount text `updateQRCode(amount)` writes
(`script.js` line 179). -/
def updateQRCodeAmountText (amount : ℚ) : String :=
  "Total Amount: " ++ formatINR amount

/-- The amounts the QR update is invoked with during the `DOMContentLoaded`
handler (`script.js` lines 289-300) starting from the empty cart:
`renderCart()` invokes `updateQRCode(grandTotal)` (line 156), then the
handler invokes `updateQRCode(0)` (line 299). -/
def startupQRAmounts : List ℚ :=
  (renderCart ([] : Cart)).qrAmounts ++ [(0 : ℚ)]

/-- One summary line of the checkout handler (`script.js` line 241). -/
def checkoutLine (it : LineItem) : String :=
  it.name ++ " x " ++ toString it.quantity ++ " = "
    ++ formatINR (it.price * (it.quantity : ℚ))

/-- The checkout click handler (`script.js` lines 235-261): the list of
`alert` calls it makes (the confirmation surface) paired with the store it
leaves behind.  Empty cart: early return, no alert, store untouched.
Otherwise: build the summary, alert it once, then `clearCart()`. -/
def checkoutClick (c : Cart) : List String × Cart :=
  if c.length = 0 then ([], c)
  else
    let t := calculateTotals c
    let message := String.intercalate "\n"
      (["Thank you for your order at South Spice! 🥘", "", "Order Summary:"]
        ++ c.map checkoutLine
        ++ ["", "Items Total: " ++ formatINR t.itemsTotal,
            "Grand Total: " ++ formatINR t.grandTotal, "",
            "Your order has been received. Please proceed to the counter for payment."])
    ([message], clearCart c)

/-- The cart states reachable from the empty store through the four
mutators, each fed arbitrary (trigger-layer-filtered) input. -/
inductive Reachable : Cart → Prop
  | empty : Reachable []
  | add (c : Cart) (item : AddInput) : Reachable c → Reachable (addToCart c item)
  | update (c : Cart) (id : String) (delta : ℤ) :
      Reachable c → Reachable (updateQuantity c id delta)
  | remove (c : Cart) (id : String) : Reachable c → Reachable (removeFromCart c id)
  | clear (c : Cart) : Reachable c → Reachable (clearCart c)

/-! ### Helper lemmas about the embedded `Map` operations -/

lemma mapGet_nil (key : String) : mapGet [] key = none := rfl

lemma mapGet_cons (it : LineItem) (rest : Cart) (key : String) :
    mapGet (it :: rest) key = if it.id == key then some it else mapGet rest key := by
  cases h : it.id == key <;> simp [mapGet, List.find?_cons, h]

lemma mapGet_eq_none_iff (c : Cart) (key : String) :
    mapGet c key = none ↔ ∀ it ∈ c, it.id ≠ key := by
  simp [mapGet, List.find?_eq_none]

lemma mapGet_mapSet_self (c : Cart) (key : String) (v : LineItem) (hv : v.id = key) :
    mapGet (mapSet c key v) key = some v := by
  induction c with
  | nil => simp [mapSet, mapGet_cons, hv]
  | cons it rest ih =>
      by_cases h : it.id = key
      · simp [mapSet, h, mapGet_cons, hv]
      · simp [mapSet, h, mapGet_cons, ih]

lemma mapGet_modifyFirst (c : Cart) (key : String) (f : LineItem → LineItem)
    (hf : ∀ x, (f x).id = x.id) (e : LineItem) (h : mapGet c key = some e) :
    mapGet (modifyFirst c key f) key = some (f e) := by
  induction c with
  | nil => simp [mapGet] at h
  | cons it rest ih =>
      rw [mapGet_cons] at h
      by_cases hid : it.id = key
      · simp [hid] at h
        simp [modifyFirst, hid, mapGet_cons, hf, ← h]
      · simp [hid] at h
        simp [modifyFirst, hid, mapGet_cons, ih h]

lemma mapGet_modifyFirst_ne (c : Cart) (key key' : String) (f : LineItem → LineItem)
    (hf : ∀ x, (f x).id = x.id) (hne : key' ≠ key) :
    mapGet (modifyFirst c key f) key' = mapGet c key' := by
  induction c with
  | nil => simp [modifyFirst]
  | cons it rest ih =>
      by_cases hid : it.id = key
      · have : (f it).id = it.id := hf it
        simp [modifyFirst, hid, mapGet_cons, this, Ne.symm hne]
      · simp [modifyFirst, hid, mapGet_cons, ih]

lemma mapDelete_subset (c : Cart) (key : String) :
    ∀ it ∈ mapDelete c key, it ∈ c := by
  induction c with
  | nil => simp [mapDelete]
  | cons x rest ih =>
      by_cases hid : x.id = key
      · intro it hit
        simp [mapDelete, hid] at hit
        exact List.mem_cons_of_mem _ hit
      · intro it hit
        simp only [mapDelete, hid, if_neg] at hit
        simp only [beq_iff_eq, hid, if_false, List.mem_cons] at hit
        rcases hit with h | h
        · exact h ▸ List.mem_cons_self _ _
        · exact List.mem_cons_of_mem _ (ih it h)

lemma mapDelete_of_get_none (c : Cart) (key : String) (h : mapGet c key = none) :
    mapDelete c key = c := by
  induction c with
  | nil => rfl
  | cons it rest ih =>
      rw [mapGet_cons] at h
      by_cases hid : it.id = key
      · simp [hid] at h
      · simp [hid] at h
        simp [mapDelete, hid, ih h]

lemma mapGet_mapDelete_of_nodup (c : Cart) (key : String)
    (hnd : (c.map LineItem.id).Nodup) :
    mapGet (mapDelete c key) key = none := by
  induction c with
  | nil => rfl
  | cons it rest ih =>
      simp only [List.map_cons, List.nodup_cons] at hnd
      by_cases hid : it.id = key
      · simp only [mapDelete, hid, beq_self_eq_true, if_true]
        rw [mapGet_eq_none_iff]
        intro x hx hxk
        exact hnd.1 (hid ▸ hxk ▸ List.mem_map_of_mem LineItem.id hx)
      · simp only [mapDelete, beq_iff_eq, hid, if_false]
        rw [mapGet_cons]
        simp [hid, ih hnd.2]

lemma mem_mapSet (c : Cart) (key : String) (v it : LineItem)
    (h : it ∈ mapSet c key v) : it ∈ c ∨ it = v := by
  induction c with
  | nil => simp [mapSet] at h; exact Or.inr h
  | cons x rest ih =>
      by_cases hid : x.id = key
      · simp only [mapSet, hid, beq_self_eq_true, if_true, List.mem_cons] at h
        rcases h with h | h
        · exact Or.inr h
        · exact Or.inl (List.mem_cons_of_mem _ h)
      · simp only [mapSet, beq_iff_eq, hid, if_false, List.mem_cons] at h
        rcases h with h | h
        · exact Or.inl (h ▸ List.mem_cons_self _ _)
        · rcases ih h with h | h
          · exact Or.inl (List.mem_cons_of_mem _ h)
          · exact Or.inr h

lemma mem_modifyFirst (c : Cart) (key : String) (f : LineItem → LineItem) (it : LineItem)
    (h : it ∈ modifyFirst c key f) : it ∈ c ∨ ∃ x ∈ c, it = f x := by
  induction c with
  | nil => simp [modifyFirst] at h
  | cons x rest ih =>
      by_cases hid : x.id = key
      · simp only [modifyFirst, hid, beq_self_eq_true, if_true, List.mem_cons] at h
        rcases h with h | h
        · exact Or.inr ⟨x, List.mem_cons_self _ _, h⟩
        · exact Or.inl (List.mem_cons_of_mem _ h)
      · simp only [modifyFirst, beq_iff_eq, hid, if_false, List.mem_cons] at h
        rcases h with h | h
        · exact Or.inl (h ▸ List.mem_cons_self _ _)
        · rcases ih h with h | ⟨y, hy, hyf⟩
          · exact Or.inl (List.mem_cons_of_mem _ h)
          · exact Or.inr ⟨y, List.mem_cons_of_mem _ hy, hyf⟩

lemma foldl_add_eq_sum (f : LineItem → ℚ) (l : Cart) :
    ∀ a : ℚ, l.foldl (fun acc it => acc + f it) a = a + (l.map f).sum := by
  induction l with
  | nil => intro a; simp
  | cons x rest ih =>
      intro a
      simp only [List.foldl_cons, List.map_cons, List.sum_cons, ih]
      ring

/-- A whole sequence of `addToCart` calls, first call first. -/
def addAll (c : Cart) (items : List AddInput) : Cart :=
  items.foldl addToCart c

lemma addToCart_of_get_some (c : Cart) (item : AddInput) (e : LineItem)
    (h : mapGet c item.id = some e) :
    mapGet (addToCart c item) item.id = some { e with quantity := e.quantity + 1 } := by
  have : addToCart c item
      = modifyFirst c item.id (fun ex => { ex with quantity := ex.quantity + 1 }) := by
    simp [addToCart, h]
  rw [this]
  exact mapGet_modifyFirst c item.id
    (fun ex => { ex with quantity := ex.quantity + 1 }) (fun x => rfl) e h

lemma addToCart_of_get_none (c : Cart) (item : AddInput)
    (h : mapGet c item.id = none) :
    mapGet (addToCart c item) item.id
      = some { id := item.id, name := item.name, price := item.price, quantity := 1 } := by
  have : addToCart c item
      = mapSet c item.id { id := item.id, name := item.name, price := item.price, quantity := 1 } := by
    simp [addToCart, h]
  rw [this]
  exact mapGet_mapSet_self c item.id _ rfl

lemma addAll_of_get_some (items : List AddInput) :
    ∀ (c : Cart) (id : String) (e : LineItem),
      mapGet c id = some e → (∀ it ∈ items, it.id = id) →
      mapGet (addAll c items) id = some { e with quantity := e.quantity + items.length } := by
  induction items with
  | nil => intro c id e h _; simpa [addAll] using h
  | cons x rest ih =>
      intro c id e h hall
      have hx : x.id = id := hall x (List.mem_cons_self _ _)
      have hstep : mapGet (addToCart c x) id = some { e with quantity := e.quantity + 1 } := by
        rw [← hx] at h ⊢
        exact addToCart_of_get_some c x e h
      have hrest : ∀ it ∈ rest, it.id = id := fun it hit => hall it (List.mem_cons_of_mem _ hit)
      have := ih (addToCart c x) id _ hstep hrest
      simp only [addAll, List.foldl_cons] at this ⊢
      rw [this]
      congr 1
      simp only [List.length_cons]
      push_cast
      ring_nf

/-! ### Claims -/

/-- C1: `addToCart` increments an existing entry's quantity by exactly 1
and keeps its stored name and price (whatever the input carried); when the
id is absent it inserts the input's id, name and price with quantity 1;
hence a sequence of adds with one id starting from a store without that id
yields quantity = number of calls, with the first call's name and price. -/
theorem C1_addToCart_spec :
    (∀ (c : Cart) (item : AddInput) (e : LineItem),
        mapGet c item.id = some e →
        mapGet (addToCart c item) item.id = some { e with quantity := e.quantity + 1 }) ∧
    (∀ (c : Cart) (item : AddInput),
        mapGet c item.id = none →
        mapGet (addToCart c item) item.id
          = some { id := item.id, name := item.name, price := item.price, quantity := 1 }) ∧
    (∀ (c : Cart) (id : String) (first : AddInput) (rest : List AddInput),
        mapGet c id = none → first.id = id → (∀ it ∈ rest, it.id = id) →
        mapGet (addAll c (first :: rest)) id
          = some { id := id, name := first.name, price := first.price,
                   quantity := ((first :: rest).length : ℤ) }) := by
  refine ⟨addToCart_of_get_some, addToCart_of_get_none, ?_⟩
  intro c id first rest hnone hfirst hrest
  have h1 : mapGet (addToCart c first) id
      = some { id := id, name := first.name, price := first.price, quantity := 1 } := by
    rw [← hfirst] at hnone ⊢
    exact addToCart_of_get_none c first hnone
  have h2 := addAll_of_get_some rest (addToCart c first) id _ h1 hrest
  simp only [addAll, List.foldl_cons] at h2 ⊢
  rw [h2]
  simp only [Option.some.injEq, LineItem.mk.injEq, List.length_cons]
  refine ⟨trivial, trivial, trivial, ?_⟩
  push_cast
  ring_nf

/-- Witness for C1 at a concrete input: two adds of id "A" (the second
with a different name and price) yield one entry with the first call's
name and price and quantity 2. -/
theorem C1_addToCart_spec_witness :
    mapGet (addAll [] [⟨"A", "Dosa", 80⟩, ⟨"A", "Masala", 999⟩]) "A"
      = some { id := "A", name := "Dosa", price := 80, quantity := 2 } := by
  have h := C1_addToCart_spec.2.2 [] "A" ⟨"A", "Dosa", 80⟩ [⟨"A", "Masala", 999⟩]
    rfl rfl (by decide)
  simpa using h

/-- C2: `calculateTotals` returns `itemsTotal` equal to the sum of
`price × quantity` over the entries, `grandTotal = itemsTotal`, and
`{0, 0}` on the empty store. -/
theorem C2_calculateTotals_spec :
    (∀ c : Cart,
        (calculateTotals c).itemsTotal
          = (c.map (fun it => it.price * (it.quantity : ℚ))).sum
        ∧ (calculateTotals c).grandTotal = (calculateTotals c).itemsTotal) ∧
    calculateTotals [] = { itemsTotal := 0, grandTotal := 0 } := by
  constructor
  · intro c
    constructor
    · simpa using foldl_add_eq_sum (fun it => it.price * (it.quantity : ℚ)) c 0
    · rfl
  · rfl

/-- C3: `updateQuantity` is a no-op when the id is absent; otherwise, with
newQuantity = quantity + delta, it removes the entry when newQuantity ≤ 0
and stores newQuantity when it is positive; in particular a delta of minus
the current quantity leaves the id absent. -/
theorem C3_updateQuantity_spec :
    (∀ (c : Cart) (id : String) (delta : ℤ),
        mapGet c id = none → updateQuantity c id delta = c) ∧
    (∀ (c : Cart) (id : String) (delta : ℤ) (e : LineItem),
        (c.map LineItem.id).Nodup → mapGet c id = some e → e.quantity + delta ≤ 0 →
        mapGet (updateQuantity c id delta) id = none) ∧
    (∀ (c : Cart) (id : String) (delta : ℤ) (e : LineItem),
        mapGet c id = some e → 0 < e.quantity + delta →
        mapGet (updateQuantity c id delta) id
          = some { e with quantity := e.quantity + delta }) ∧
    (∀ (c : Cart) (id : String) (e : LineItem),
        (c.map LineItem.id).Nodup → mapGet c id = some e →
        mapGet (updateQuantity c id (-e.quantity)) id = none) := by
  have habs : ∀ (c : Cart) (id : String) (delta : ℤ),
      mapGet c id = none → updateQuantity c id delta = c := by
    intro c id delta h
    simp [updateQuantity, h]
  have hdel : ∀ (c : Cart) (id : String) (delta : ℤ) (e : LineItem),
      (c.map LineItem.id).Nodup → mapGet c id = some e → e.quantity + delta ≤ 0 →
      mapGet (updateQuantity c id delta) id = none := by
    intro c id delta e hnd h hle
    have : updateQuantity c id delta = mapDelete c id := by
      simp only [updateQuantity, h]
      rw [if_pos hle]
    rw [this]
    exact mapGet_mapDelete_of_nodup c id hnd
  refine ⟨habs, hdel, ?_, ?_⟩
  · intro c id delta e h hpos
    have : updateQuantity c id delta
        = modifyFirst c id (fun it => { it with quantity := e.quantity + delta }) := by
      simp only [updateQuantity, h]
      rw [if_neg (not_le.mpr hpos)]
    rw [this]
    exact mapGet_modifyFirst c id
      (fun it => { it with quantity := e.quantity + delta }) (fun x => rfl) e h
  · intro c id e hnd h
    exact hdel c id (-e.quantity) e hnd h (by omega)

/-- Witness for C3 at a concrete input: removing the whole quantity of
"B" leaves "B" absent. -/
theorem C3_updateQuantity_spec_witness :
    mapGet (updateQuantity [LineItem.mk "B" "Tea" 50 1] "B"
      (-(LineItem.mk "B" "Tea" 50 1).quantity)) "B" = none :=
  C3_updateQuantity_spec.2.2.2 [LineItem.mk "B" "Tea" 50 1] "B"
    (LineItem.mk "B" "Tea" 50 1) (by simp) rfl

/-- C5: the checkout click handler on the empty store is a guarded no-op:
no confirmation-surface (`alert`) call is made and the store is left
unchanged. -/
theorem C5_checkout_empty_noop :
    checkoutClick [] = (([] : List String), ([] : Cart)) := rfl

/-- C6: `removeFromCart` is idempotent: a second removal of the same id is
a no-op. -/
theorem C6_removeFromCart_idem :
    ∀ (c : Cart) (id : String), (c.map LineItem.id).Nodup →
      removeFromCart (removeFromCart c id) id = removeFromCart c id := by
  intro c id hnd
  unfold removeFromCart
  exact mapDelete_of_get_none _ _ (mapGet_mapDelete_of_nodup c id hnd)

/-- Witness for C6 at a concrete input. -/
theorem C6_removeFromCart_idem_witness :
    removeFromCart (removeFromCart [LineItem.mk "A" "Dosa" 80 1] "A") "A"
      = removeFromCart [LineItem.mk "A" "Dosa" 80 1] "A" :=
  C6_removeFromCart_idem [LineItem.mk "A" "Dosa" 80 1] "A" (by simp)

/-- C7: `calculateTotals` is a pure query: the store it leaves behind is
exactly the input store (same entries, names, prices, quantities, order),
and its value is the totals of that store. -/
theorem C7_calculateTotals_pure :
    ∀ c : Cart, (calculateTotalsOp c).2 = c
      ∧ (calculateTotalsOp c).1 = calculateTotals c :=
  fun _ => ⟨rfl, rfl⟩

/-- C4: in every store state reachable from the empty store through the
mutators, every held entry has quantity ≥ 1. -/
theorem C4_reachable_quantity_pos (c : Cart) (hc : Reachable c) :
    ∀ it ∈ c, 1 ≤ it.quantity := by
  induction hc with
  | empty => intro it hit; simp at hit
  | add c item _ ih =>
      intro it hit
      cases hget : mapGet c item.id with
      | none =>
          simp only [addToCart, hget] at hit
          rcases mem_mapSet _ _ _ _ hit with h | h
          · exact ih it h
          · rw [h]
      | some e =>
          simp only [addToCart, hget] at hit
          rcases mem_modifyFirst _ _ _ _ hit with h | ⟨x, hx, hfx⟩
          · exact ih it h
          · have hxq := ih x hx
            rw [hfx]
            show 1 ≤ x.quantity + 1
            omega
  | update c id delta _ ih =>
      intro it hit
      cases hget : mapGet c id with
      | none => simp only [updateQuantity, hget] at hit; exact ih it hit
      | some e =>
          simp only [updateQuantity, hget] at hit
          by_cases hle : e.quantity + delta ≤ 0
          · rw [if_pos hle] at hit
            exact ih it (mapDelete_subset c id it hit)
          · rw [if_neg hle] at hit
            rcases mem_modifyFirst _ _ _ _ hit with h | ⟨x, hx, hfx⟩
            · exact ih it h
            · rw [hfx]
              show 1 ≤ e.quantity + delta
              omega
  | remove c id _ ih =>
      intro it hit
      exact ih it (mapDelete_subset c id it hit)
  | clear c _ _ => intro it hit; simp [clearCart] at hit

/-- Witness for C4 at a concrete input: the entry of the reachable store
`addToCart [] ⟨"A", "Dosa", 80⟩` has quantity ≥ 1. -/
theorem C4_reachable_quantity_pos_witness :
    1 ≤ (LineItem.mk "A" "Dosa" 80 1).quantity :=
  C4_reachable_quantity_pos (addToCart [] ⟨"A", "Dosa", 80⟩)
    (Reachable.add [] ⟨"A", "Dosa", 80⟩ Reachable.empty)
    (LineItem.mk "A" "Dosa" 80 1) (by simp [addToCart, mapGet, mapSet])

/-- C8: `formatINR` produces the currency symbol immediately followed by
the amount rounded to zero decimal places, and the displayed totals apply
it only after the exact (full-precision) summation. -/
theorem C8_formatINR_spec :
    (∀ q : ℚ, 0 ≤ q → formatINR q = "₹" ++ toString (round q)) ∧
    (∀ c : Cart,
        (renderCart c).itemsTotalText
          = formatINR ((c.map (fun it => it.price * (it.quantity : ℚ))).sum)
        ∧ (renderCart c).grandTotalText
          = formatINR ((c.map (fun it => it.price * (it.quantity : ℚ))).sum)) := by
  constructor
  · intro q hq
    rw [formatINR, toFixed0Str, if_neg (not_lt.mpr hq), round_eq]
  · intro c
    have hsum : (calculateTotals c).itemsTotal
        = (c.map (fun it => it.price * (it.quantity : ℚ))).sum := by
      simpa using foldl_add_eq_sum (fun it => it.price * (it.quantity : ℚ)) c 0
    constructor
    · show formatINR (calculateTotals c).itemsTotal = _
      rw [hsum]
    · show formatINR (calculateTotals c).grandTotal = _
      rw [show (calculateTotals c).grandTotal = (calculateTotals c).itemsTotal from rfl, hsum]

/-- Witness for C8 at a concrete input. -/
theorem C8_formatINR_spec_witness :
    formatINR 80 = "₹" ++ toString (round (80 : ℚ)) :=
  C8_formatINR_spec.1 80 (by norm_num)

/-- C9 counterexample: during startup the QR update is not invoked exactly
once with amount 0 — the invocation list is not `[0]`. -/
theorem C9_startup_qr_cex : startupQRAmounts ≠ [(0 : ℚ)] := by
  simp [startupQRAmounts, renderCart, calculateTotals]

/-- C9 amended: during startup the QR update is invoked exactly twice,
each time with amount 0 (once from the initial `renderCart()`, once from
the explicit `updateQRCode(0)`). -/
theorem C9_startup_qr_amended : startupQRAmounts = [(0 : ℚ), 0] := by
  simp [startupQRAmounts, renderCart, calculateTotals]

/-- C10: after an entry is removed (by `removeFromCart` or by
`updateQuantity` driving its quantity to 0), re-adding the same id with a
(possibly different) name and price inserts a fresh entry carrying the new
call's name and price with quantity 1. -/
theorem C10_readd_after_removal :
    ∀ (c : Cart) (input : AddInput), (c.map LineItem.id).Nodup →
      (mapGet (addToCart (removeFromCart c input.id) input) input.id
        = some { id := input.id, name := input.name, price := input.price, quantity := 1 })
      ∧ (∀ e : LineItem, mapGet c input.id = some e →
          mapGet (addToCart (updateQuantity c input.id (-e.quantity)) input) input.id
            = some { id := input.id, name := input.name, price := input.price, quantity := 1 }) := by
  intro c input hnd
  constructor
  · exact addToCart_of_get_none _ input (mapGet_mapDelete_of_nodup c input.id hnd)
  · intro e hget
    have hdel : updateQuantity c input.id (-e.quantity) = mapDelete c input.id := by
      simp only [updateQuantity, hget]
      rw [if_pos (by omega : e.quantity + -e.quantity ≤ 0)]
    rw [hdel]
    exact addToCart_of_get_none _ input (mapGet_mapDelete_of_nodup c input.id hnd)

/-- Witness for C10 at a concrete input: remove "A" (stored as Dosa at 80)
and re-add "A" as Idli at 50 — the fresh entry carries the new name and
price. -/
theorem C10_readd_after_removal_witness :
    mapGet (addToCart (removeFromCart [LineItem.mk "A" "Dosa" 80 1] "A")
        ⟨"A", "Idli", 50⟩) "A"
      = some (LineItem.mk "A" "Idli" 50 1) :=
  (C10_readd_after_removal [LineItem.mk "A" "Dosa" 80 1] ⟨"A", "Idli", 50⟩ (by simp)).1
